import Mathlib

/-!
Shallow embedding of the reconciliation engine of the `kube-controller01`
repository (`internal/controller/service_controller.go`), together with
theorems settling the frozen claims about it.

Go strings are modelled as `List Char` where character-level operations
matter (the naming function), and as `String` elsewhere.  Go maps from
string to string are modelled as association lists with Go's zero-value
lookup semantics.  Every cloud API call is modelled by an explicit
environment value describing that call's outcome; functions that issue
calls additionally return the list of calls they issued, in order.
-/

namespace NCloudCtrl

/-! ### Character classes used by `generateValidName` -/

/-- `[a-z]` test on a character. -/
def isLowerAlpha (c : Char) : Bool := 'a' ≤ c && c ≤ 'z'

/-- `[0-9]` test on a character. -/
def isDigitCh (c : Char) : Bool := '0' ≤ c && c ≤ '9'

/-- The character class `[a-z0-9-]` kept by the sanitizing regexp
`[^a-z0-9-]` (whose matches are deleted). -/
def isAllowed (c : Char) : Bool := isLowerAlpha c || isDigitCh c || c = '-'

/-! ### Go `strings` package operations on `List Char` -/

/-- Go `strings.Split(s, sep)` for a one-character separator. -/
def splitOnChar (sep : Char) : List Char → List (List Char)
  | [] => [[]]
  | c :: rest =>
    match splitOnChar sep rest with
    | [] => [[]]
    | g :: gs => if c = sep then [] :: g :: gs else (c :: g) :: gs

/-- One pass of Go `strings.ReplaceAll(name, "--", "-")`: scan left to
right, replace each non-overlapping `--` by `-`. -/
def collapsePairs : List Char → List Char
  | [] => []
  | [c] => [c]
  | c :: d :: rest =>
    if c = '-' && d = '-' then '-' :: collapsePairs rest
    else c :: collapsePairs (d :: rest)

/-- Go `strings.Contains(name, "--")`. -/
def hasDD : List Char → Bool
  | [] => false
  | [_] => false
  | c :: d :: rest => (c = '-' && d = '-') || hasDD (d :: rest)

/-- The `for strings.Contains(name, "--") { name = strings.ReplaceAll(name, "--", "-") }`
loop of `generateValidName`. -/
def collapseLoop (l : List Char) : List Char :=
  if h : hasDD l = true then collapseLoop (collapsePairs l) else l
termination_by l.length
decreasing_by
  have len_le : ∀ m : List Char, (collapsePairs m).length ≤ m.length := by
    intro m
    induction m using collapsePairs.induct with
    | case1 => simp [collapsePairs]
    | case2 c => simp [collapsePairs]
    | case3 c d rest hdd ih =>
      simp only [collapsePairs, hdd, if_true, List.length_cons]
      omega
    | case4 c d rest hdd ih =>
      simp only [collapsePairs, hdd, Bool.false_eq_true, if_false, List.length_cons]
      simp only [List.length_cons] at ih
      omega
  have aux : ∀ m : List Char, hasDD m = true → (collapsePairs m).length < m.length := by
    intro m hm
    induction m using collapsePairs.induct with
    | case1 => simp [hasDD] at hm
    | case2 c => simp [hasDD] at hm
    | case3 c d rest hdd ih =>
      simp only [collapsePairs, hdd, if_true, List.length_cons]
      have := len_le rest
      omega
    | case4 c d rest hdd ih =>
      simp only [hasDD, hdd, Bool.false_or] at hm
      have := ih hm
      simp only [collapsePairs, hdd, Bool.false_eq_true, if_false, List.length_cons]
      simp only [List.length_cons] at this
      omega
  exact aux l h

/-- Go `strings.TrimLeft(l, "-")` behaviour (leading side of `strings.Trim`). -/
def dropLeadingDashes : List Char → List Char
  | [] => []
  | c :: rest => if c = '-' then dropLeadingDashes rest else c :: rest

/-- Go `strings.Trim(name, "-")`. -/
def trimDashes (l : List Char) : List Char :=
  ((dropLeadingDashes l).reverse |> dropLeadingDashes).reverse

/-- Whether the string begins with `[a-z]` (the `^[a-z]` regexp match). -/
def headIsLower : List Char → Bool
  | [] => false
  | c :: _ => isLowerAlpha c

/-- Go `strings.TrimSuffix(name, "-")`. -/
def trimSuffixDash (l : List Char) : List Char :=
  if l.getLast? = some '-' then l.dropLast else l

/-- The characters of the literal `"tg-"` prepended at two places in
`generateValidName`. -/
def tgDash : List Char := ['t', 'g', '-']

/-- The characters of the literal `"tg-default"`. -/
def tgDefault : List Char := ['t', 'g', '-', 'd', 'e', 'f', 'a', 'u', 'l', 't']

/-- The part-list built at the top of `generateValidName`: the non-empty
components among prefix, namespace (skipped when `"default"`), service
name and suffix, in that order. -/
def buildParts (pre ns svc sfx : List Char) : List (List Char) :=
  (if pre ≠ [] then [pre] else []) ++
  (if ns ≠ [] ∧ ns ≠ "default".toList then [ns] else []) ++
  (if svc ≠ [] then [svc] else []) ++
  (if sfx ≠ [] then [sfx] else [])

/-- The stages of `generateValidName` that follow the `--` collapsing and
the `-` trimming: force a `[a-z]` first character, cut to 30 characters,
strip one trailing `-`, enforce the minimum length of 3. -/
def sanitizeFinish (n2 : List Char) : List Char :=
  let n3 := if n2.isEmpty || !headIsLower n2 then tgDash ++ n2 else n2
  let n4 := n3.take 30
  let n5 := trimSuffixDash n4
  if n5.length < 3 then
    let n6 := tgDash ++ n5
    if n6.length < 3 then tgDefault else n6
  else n5

/-- The stages of `generateValidName` that follow the character filter:
collapse `--`, trim `-` at both ends, then run `sanitizeFinish`. -/
def sanitizeTail (w : List Char) : List Char :=
  sanitizeFinish (trimDashes (collapseLoop w))

/-- `generateValidName` of `service_controller.go`: join the non-empty
parts with `-`, lower-case, delete characters outside `[a-z0-9-]`, then
run the tail stages. -/
def generateValidName (pre ns svc sfx : List Char) : List Char :=
  sanitizeTail (((List.intercalate ['-'] (buildParts pre ns svc sfx)).map Char.toLower).filter
    (fun c => isAllowed c))

/-- The anchored regexp `^[a-z][a-z0-9-]*[a-z0-9]$` from the claim, as a
decidable matcher: length at least 2, first character `[a-z]`, every
character `[a-z0-9-]`, last character `[a-z0-9]`. -/
def matchesNamePattern (l : List Char) : Bool :=
  decide (2 ≤ l.length) &&
  (match l.head? with
   | some c => isLowerAlpha c
   | none => false) &&
  l.all isAllowed &&
  (match l.getLast? with
   | some c => isLowerAlpha c || isDigitCh c
   | none => false)

/-! ### Data model: the watched Service and its persisted state -/

/-- One `status.loadBalancer.ingress` entry (`corev1.LoadBalancerIngress`),
with Go zero values for the unset field. -/
structure IngressM where
  ip : String := ""
  hostname : String := ""
deriving DecidableEq

/-- The fields of the watched `corev1.Service` that the reconciliation
engine reads or writes.  `deletionTimestamp = true` models a non-zero
`DeletionTimestamp`; `annotations` is the Go string map as an
association list. -/
structure KService where
  svcType : String
  deletionTimestamp : Bool
  finalizers : List String
  annotations : List (String × String)
  ingress : List IngressM
deriving DecidableEq

/-- `LoadBalancerStatus` of `service_controller.go`. -/
structure LoadBalancerStatus where
  provisioningStatus : String
  lbid : String
  externalIP : String
deriving DecidableEq

/-- The finalizer string of `Reconcile`. -/
def naverLBFinalizer : String := "naver.k-paas.org/lb-finalizer"

/-- The `lb-id` annotation key. -/
def lbIdKey : String := "naver.k-paas.org/lb-id"

/-- The `target-groups` annotation key. -/
def targetGroupsKey : String := "naver.k-paas.org/target-groups"

/-- Go two-result map lookup `v, ok := m[k]`. -/
def annLookup (ann : List (String × String)) (k : String) : Option String :=
  match ann with
  | [] => none
  | kv :: rest => if kv.1 = k then some kv.2 else annLookup rest k

/-- Go one-result map lookup `m[k]`, returning the zero value `""` for a
missing key. -/
def goMapGet (ann : List (String × String)) (k : String) : String :=
  (annLookup ann k).getD ("")

/-- Go map assignment `m[k] = v` on the association-list model. -/
def annSet (ann : List (String × String)) (k v : String) : List (String × String) :=
  match ann with
  | [] => [(k, v)]
  | kv :: rest => if kv.1 = k then (k, v) :: rest else kv :: annSet rest k v

/-- `containsString` of `service_controller.go`. -/
def containsString (slice : List String) (s : String) : Bool :=
  match slice with
  | [] => false
  | item :: rest => if item = s then true else containsString rest s

/-- `removeString` of `service_controller.go`. -/
def removeString (slice : List String) (s : String) : List String :=
  match slice with
  | [] => []
  | item :: rest =>
    if item ≠ s then item :: removeString rest s else removeString rest s

/-- Go `strings.Split(s, ",")`. -/
def goSplitComma (s : String) : List String :=
  (splitOnChar ',' s.toList).map (fun l => String.mk l)

/-! ### Teardown orchestrator (`deleteNaverCloudLB`) -/

/-- A cloud deletion API call, recorded in issue order. -/
inductive CloudCall where
  | deleteLB (id : String)
  | deleteTG (id : String)
deriving DecidableEq

/-- Outcomes of the deletion API calls: whether
`DeleteLoadBalancerInstances` succeeds, and whether `DeleteTargetGroups`
succeeds for a given target-group id.  In the code a target-group
deletion failure is only logged (the loop `continue`s), so `deleteTGOk`
influences neither the issued calls nor the returned error. -/
structure TeardownEnv where
  deleteLBOk : Bool
  deleteTGOk : String → Bool

/-- `deleteNaverCloudLB` of `service_controller.go`: returns the issued
cloud calls in order and whether an error is returned.  With neither
annotation present it is a no-op success; otherwise the load balancer
(if its annotation is present and non-empty) is deleted first and a
failure there aborts with an error; then every non-empty id of the
`target-groups` annotation gets one `DeleteTargetGroups` call,
failures notwithstanding, and the function returns success. -/
def deleteNaverCloudLB (env : TeardownEnv) (service : KService) :
    List CloudCall × Bool :=
  let lbOpt := annLookup service.annotations lbIdKey
  let tgOpt := annLookup service.annotations targetGroupsKey
  if lbOpt.isNone && tgOpt.isNone then ([], false)
  else
    let lbID := lbOpt.getD ("")
    let lbCalls : List CloudCall :=
      if lbOpt.isSome && decide (lbID ≠ "") then [CloudCall.deleteLB lbID] else []
    if lbOpt.isSome && decide (lbID ≠ "") && !env.deleteLBOk then (lbCalls, true)
    else
      let tgStr := tgOpt.getD ("")
      let tgCalls : List CloudCall :=
        if tgOpt.isSome && decide (tgStr ≠ "") then
          (goSplitComma tgStr).filterMap
            (fun tgID => if tgID = "" then none else some (CloudCall.deleteTG tgID))
        else []
      (lbCalls ++ tgCalls, false)

/-- The non-empty target-group ids the teardown loop iterates over
(lines 821-827 of the source). -/
def annTargetGroupIds (service : KService) : List String :=
  match annLookup service.annotations targetGroupsKey with
  | some tgStr =>
    if tgStr ≠ "" then (goSplitComma tgStr).filter (fun t => t ≠ "") else []
  | none => []

/-! ### External address resolution (`getLoadBalancerExternalAddress`) -/

/-- The first element of a `GetLoadBalancerInstanceDetail` response:
optional status object (its `Code`), optional domain, optional IP
pointer list. -/
structure LBInstanceM where
  statusCode : Option String
  domain : Option String
  ipList : Option (List (Option String))
deriving DecidableEq

/-- Outcome of the detail fetch. -/
inductive DetailResult where
  | detailError
  | detail (instances : List LBInstanceM)
deriving DecidableEq

/-- The synthesized fallback `lb-<id>.ncloud.com`. -/
def lbDefaultDomain (lbID : String) : String := "lb-" ++ lbID ++ ".ncloud.com"

/-- The IP-list step of the waterfall: the FIRST entry of the list if it
is a non-nil, non-empty pointer, else the synthesized default domain
(later list entries are never consulted by the code). -/
def ipListOrDefault (inst : LBInstanceM) (lbID : String) : String :=
  match inst.ipList with
  | some (first :: _) =>
    match first with
    | some ip => if ip ≠ "" then ip else lbDefaultDomain lbID
    | none => lbDefaultDomain lbID
  | _ => lbDefaultDomain lbID

/-- The domain / IP / default waterfall after the status check passes. -/
def addressWaterfall (inst : LBInstanceM) (lbID : String) : String :=
  match inst.domain with
  | some d => if d ≠ "" then d else ipListOrDefault inst lbID
  | none => ipListOrDefault inst lbID

/-- `getLoadBalancerExternalAddress` of `service_controller.go`:
`none` models a returned error. -/
def getLoadBalancerExternalAddress (res : DetailResult) (lbID : String) :
    Option String :=
  match res with
  | .detailError => none
  | .detail [] => none
  | .detail (inst :: _) =>
    match inst.statusCode with
    | some code =>
      if code ≠ "RUN" && code ≠ "USED" then none
      else some (addressWaterfall inst lbID)
    | none => some (addressWaterfall inst lbID)

/-- IP step as the CLAIM words it (a comparison definition written from
the claim text, not from the code): the first NON-EMPTY entry of the IP
list, else the synthesized default domain. -/
def claimIpStep (inst : LBInstanceM) (lbID : String) : String :=
  match ((inst.ipList.getD []).filterMap id).filter (fun ip => ip ≠ "") with
  | ip :: _ => ip
  | [] => lbDefaultDomain lbID

/-- The whole address priority as the CLAIM words it: non-empty domain,
else first non-empty entry of the IP list, else the default domain. -/
def claimAddressPriority (inst : LBInstanceM) (lbID : String) : String :=
  match inst.domain with
  | some d => if d ≠ "" then d else claimIpStep inst lbID
  | none => claimIpStep inst lbID

/-! ### Target registration engine (`addTargetsWithRetry`) -/

/-- One round's API outcomes: whether the bulk `AddTarget` call succeeds,
and the `GetTargetList` verification outcome (`none` = list call fails,
`some reg` = the registered target ids). -/
structure RoundEnv where
  addOk : Bool
  verifyList : Option (List String)
deriving DecidableEq

/-- `verifyTargetRegistration` of `service_controller.go`: partitions
the expected targets into (successful, failed) against the listed
registered targets; a list failure reports all expected targets failed
together with an error flag. -/
def verifyTargetRegistration (resp : Option (List String))
    (expected : List String) : List String × List String × Bool :=
  match resp with
  | none => ([], expected, true)
  | some regList =>
    (expected.filter (fun t => regList.contains t),
     expected.filter (fun t => !regList.contains t), false)

/-- The `for retry := 0; retry < 3` loop body of `addTargetsWithRetry`:
on an `AddTarget` failure the same set is retried; on success the set is
re-verified and only the unconfirmed part is carried (unless the
verification itself errored, in which case the set is left unchanged). -/
def addLoop : List RoundEnv → List String → List String
  | [], remaining => remaining
  | r :: rs, remaining =>
    if remaining.isEmpty then remaining
    else if !r.addOk then addLoop rs remaining
    else
      let v := verifyTargetRegistration r.verifyList remaining
      if v.2.2 then addLoop rs remaining
      else addLoop rs v.2.1

/-- `addTargetsWithRetry` of `service_controller.go`; `true` models a
returned (fatal) error.  The post-loop diagnostic
`checkTargetGroupStatus` pass never influences the returned error and is
not modelled. -/
def addTargetsWithRetry (r0 r1 r2 : RoundEnv) (targets : List String) : Bool :=
  if targets.isEmpty then false
  else
    let remaining := addLoop [r0, r1, r2] targets
    if remaining.length > 0 then
      if remaining.length < targets.length then false
      else true
    else false

/-! ### Annotation writer (`updateServiceAnnotations`) -/

/-- `updateServiceAnnotations` of `service_controller.go`, acting on the
freshly fetched object `latest`: sets each requested key whose current
value differs, and issues the write (second component `true`) only when
some key changed. -/
def updateServiceAnnotations (latest : KService)
    (req : List (String × String)) : KService × Bool :=
  let step := req.foldl
    (fun (acc : List (String × String) × Bool) kv =>
      if goMapGet acc.1 kv.1 ≠ kv.2 then (annSet acc.1 kv.1 kv.2, true) else acc)
    (latest.annotations, false)
  if step.2 then ({ latest with annotations := step.1 }, true) else (latest, false)

/-! ### Status projection helpers -/

/-- The anchored dotted-quad regexp
`^\d{1,3}\.\d{1,3}\.\d{1,3}\.\d{1,3}$` of `Reconcile`, as a decidable
matcher: exactly four dot-separated groups of one to three digits. -/
def matchDottedQuad (l : List Char) : Bool :=
  match splitOnChar '.' l with
  | [a, b, c, d] =>
    [a, b, c, d].all
      (fun g => decide (1 ≤ g.length) && decide (g.length ≤ 3) && g.all isDigitCh)
  | _ => false

/-- The dotted-quad test on a `String` address. -/
def ipPatternMatch (s : String) : Bool := matchDottedQuad s.toList

/-- The ingress entry built from the external address: `{ip: addr}` when
the address matches the dotted-quad pattern, else `{hostname: addr}`. -/
def mkIngress (addr : String) : IngressM :=
  if ipPatternMatch addr then { ip := addr } else { hostname := addr }

/-- The `기존 설정과 다른 경우에만` condition (lines 197-199): write the
status only when no entry is stored yet or the stored first entry
differs in the populated field. -/
def ingressNeedsUpdate (cur : List IngressM) (ing : IngressM) : Bool :=
  match cur with
  | [] => true
  | c0 :: _ =>
    (decide (ing.ip ≠ "") && decide (c0.ip ≠ ing.ip)) ||
    (decide (ing.hostname ≠ "") && decide (c0.hostname ≠ ing.hostname))

/-! ### Reconciliation state machine (`Reconcile`) -/

/-- Outcome of a `r.Get` fetch. -/
inductive GetResult where
  | notFound
  | getError
  | found (svc : KService)
deriving DecidableEq

/-- The external outcomes one `Reconcile` invocation can observe: the
initial fetch, the teardown call outcomes, `r.Update` success for
finalizer writes, the provisioner result (`none` = error), the re-fetch
before the status write, and `r.Status().Update` success. -/
structure ReconcileEnv where
  getService : GetResult
  teardown : TeardownEnv
  updateOk : Bool
  provision : Option LoadBalancerStatus
  getLatest : GetResult
  statusUpdateOk : Bool

/-- What one `Reconcile` invocation returns and does: the requeue delay
and error of its `(ctrl.Result, error)` return, whether the
non-LoadBalancer no-op branch (lines 91-94) was taken, the object passed
to `r.Update` for a finalizer change (if any), whether
`reconcileNaverCloudLB` was invoked, and the ingress list successfully
written to the status (if any). -/
structure ReconcileOutcome where
  requeueAfterSec : Nat := 0
  isErr : Bool := false
  tookIgnoredBranch : Bool := false
  finalizerUpdate : Option KService := none
  provisionerInvoked : Bool := false
  statusWritten : Option (List IngressM) := none
deriving DecidableEq

/-- `Reconcile` of `service_controller.go` (lines 74-225). -/
def Reconcile (env : ReconcileEnv) : ReconcileOutcome :=
  match env.getService with
  | .notFound => {}
  | .getError => { isErr := true }
  | .found service =>
    if service.svcType ≠ "LoadBalancer" then { tookIgnoredBranch := true }
    else if service.deletionTimestamp then
      if containsString service.finalizers naverLBFinalizer then
        if (deleteNaverCloudLB env.teardown service).2 then
          { requeueAfterSec := 30, isErr := true }
        else
          let svc' : KService :=
            { service with finalizers := removeString service.finalizers naverLBFinalizer }
          if env.updateOk then { finalizerUpdate := some svc' }
          else { isErr := true, finalizerUpdate := some svc' }
      else {}
    else if !containsString service.finalizers naverLBFinalizer then
      let svc' : KService :=
        { service with finalizers := service.finalizers ++ [naverLBFinalizer] }
      if env.updateOk then { finalizerUpdate := some svc' }
      else { isErr := true, finalizerUpdate := some svc' }
    else
      match env.provision with
      | none => { requeueAfterSec := 30, isErr := true, provisionerInvoked := true }
      | some lbStatus =>
        if lbStatus.provisioningStatus = "PENDING" ∨
            lbStatus.provisioningStatus = "CREATING" then
          { requeueAfterSec := 30, provisionerInvoked := true }
        else if lbStatus.provisioningStatus = "ERROR" then
          { requeueAfterSec := 60, isErr := true, provisionerInvoked := true }
        else if lbStatus.externalIP ≠ "" then
          let ing := mkIngress lbStatus.externalIP
          match env.getLatest with
          | .found latest =>
            if ingressNeedsUpdate latest.ingress ing then
              if env.statusUpdateOk then
                { provisionerInvoked := true, statusWritten := some [ing] }
              else { requeueAfterSec := 5, isErr := true, provisionerInvoked := true }
            else { provisionerInvoked := true }
          | _ => { requeueAfterSec := 5, isErr := true, provisionerInvoked := true }
        else { provisionerInvoked := true }

/-! ## Theorems -/

/-! ### Helper lemmas -/

theorem addLoop_length_le (rs : List RoundEnv) (remaining : List String) :
    (addLoop rs remaining).length ≤ remaining.length := by
  induction rs generalizing remaining with
  | nil => simp [addLoop]
  | cons r rs ih =>
    simp only [addLoop]
    split
    · exact le_refl _
    · split
      · exact ih remaining
      · cases hv : r.verifyList with
        | none => simp only [verifyTargetRegistration, hv]; exact ih remaining
        | some regList =>
          simp only [verifyTargetRegistration, hv]
          exact le_trans (ih _) (List.length_filter_le _ _)

/-! ### Claim C2: target registration retry loop -/

/-- C2: for a non-empty target set of size `N`, `addTargetsWithRetry`
returns an error exactly when, after all three rounds, none of the `N`
targets has been confirmed registered; confirming at least one but
fewer than `N` targets, or all `N`, yields success. -/
theorem addTargetsWithRetry_spec (r0 r1 r2 : RoundEnv) (targets : List String)
    (h : targets ≠ []) :
    (addTargetsWithRetry r0 r1 r2 targets = true ↔
      targets.length - (addLoop [r0, r1, r2] targets).length = 0)
    ∧ (0 < targets.length - (addLoop [r0, r1, r2] targets).length →
        addTargetsWithRetry r0 r1 r2 targets = false)
    ∧ (targets.length - (addLoop [r0, r1, r2] targets).length = targets.length →
        addTargetsWithRetry r0 r1 r2 targets = false) := by
  have hle := addLoop_length_le [r0, r1, r2] targets
  have hpos : 0 < targets.length := List.length_pos.mpr h
  have hie : targets.isEmpty = false := by
    cases targets with
    | nil => exact absurd rfl h
    | cons a t => rfl
  unfold addTargetsWithRetry
  rw [hie]
  simp only [Bool.false_eq_true, if_false, gt_iff_lt]
  split_ifs with h1 h2
  · exact ⟨⟨fun hx => absurd hx (by simp), fun hx => absurd hx (by omega)⟩,
      fun _ => rfl, fun _ => rfl⟩
  · exact ⟨⟨fun _ => by omega, fun _ => rfl⟩,
      fun hx => absurd hx (by omega), fun hx => absurd hx (by omega)⟩
  · exact ⟨⟨fun hx => absurd hx (by simp), fun hx => absurd hx (by omega)⟩,
      fun _ => rfl, fun _ => rfl⟩

/-- Witness for C2 at a concrete two-target run in which the first round
confirms one target and the later rounds confirm nothing. -/
theorem addTargetsWithRetry_spec_witness :
    (["i1", "i2"] : List String) ≠ []
    ∧ addTargetsWithRetry ⟨true, some ["i1"]⟩ ⟨true, some []⟩ ⟨true, some []⟩
        ["i1", "i2"] = false :=
  ⟨by decide,
   (addTargetsWithRetry_spec ⟨true, some ["i1"]⟩ ⟨true, some []⟩ ⟨true, some []⟩
      ["i1", "i2"] (by decide)).2.1 (by decide)⟩

/-! ### Claim C3: teardown deletes the load balancer first -/

/-- The target-group deletion calls issued after a (successful or
skipped) load-balancer deletion. -/
theorem deleteNaverCloudLB_success_calls (env : TeardownEnv) (service : KService)
    (lbID : String) (hlb : annLookup service.annotations lbIdKey = some lbID)
    (hne : lbID ≠ "") (hok : env.deleteLBOk = true) :
    deleteNaverCloudLB env service =
      (CloudCall.deleteLB lbID ::
        (match annLookup service.annotations targetGroupsKey with
         | some tgStr =>
           if tgStr ≠ "" then
             (goSplitComma tgStr).filterMap
               (fun tgID => if tgID = "" then none else some (CloudCall.deleteTG tgID))
           else []
         | none => []), false) := by
  unfold deleteNaverCloudLB
  rw [hlb]
  cases htg : annLookup service.annotations targetGroupsKey <;>
    simp [hok, hne]

theorem deleteNaverCloudLB_fail_calls (env : TeardownEnv) (service : KService)
    (lbID : String) (hlb : annLookup service.annotations lbIdKey = some lbID)
    (hne : lbID ≠ "") (hok : env.deleteLBOk = false) :
    deleteNaverCloudLB env service = ([CloudCall.deleteLB lbID], true) := by
  unfold deleteNaverCloudLB
  rw [hlb]
  simp [hok, hne]

/-- C3: when the `lb-id` annotation is present and non-empty, the
teardown issues exactly one load-balancer deletion, as the first call,
before any target-group deletion; if that deletion fails the function
returns the error having issued no target-group call. -/
theorem deleteNaverCloudLB_lb_first (env : TeardownEnv) (service : KService)
    (lbID : String) (hlb : annLookup service.annotations lbIdKey = some lbID)
    (hne : lbID ≠ "") :
    (∃ tgRest, (deleteNaverCloudLB env service).1 = CloudCall.deleteLB lbID :: tgRest
      ∧ ∀ c ∈ tgRest, ∃ tg, c = CloudCall.deleteTG tg)
    ∧ (env.deleteLBOk = false →
        deleteNaverCloudLB env service = ([CloudCall.deleteLB lbID], true)) := by
  cases hok : env.deleteLBOk with
  | false =>
    rw [deleteNaverCloudLB_fail_calls env service lbID hlb hne hok]
    exact ⟨⟨[], rfl, by simp⟩, fun _ => rfl⟩
  | true =>
    rw [deleteNaverCloudLB_success_calls env service lbID hlb hne hok]
    refine ⟨⟨_, rfl, ?_⟩, fun hcontra => by cases hcontra⟩
    intro c hc
    cases htg : annLookup service.annotations targetGroupsKey with
    | none => rw [htg] at hc; cases hc
    | some tgStr =>
      rw [htg] at hc
      dsimp only at hc
      by_cases hts : tgStr = ""
      · rw [if_neg (by simp [hts])] at hc; cases hc
      · rw [if_pos hts] at hc
        obtain ⟨tg, _, hf⟩ := List.mem_filterMap.mp hc
        by_cases htg0 : tg = ""
        · rw [if_pos htg0] at hf; cases hf
        · rw [if_neg htg0] at hf
          exact ⟨tg, (Option.some.inj hf).symm⟩

/-- Witness for C3 at a concrete service carrying both annotations, with
the load-balancer deletion failing. -/
theorem deleteNaverCloudLB_lb_first_witness :
    deleteNaverCloudLB ⟨false, fun _ => true⟩
        ⟨"NodePort", true, [naverLBFinalizer],
          [(lbIdKey, "lb-1"), (targetGroupsKey, "tg-1,tg-2")], []⟩
      = ([CloudCall.deleteLB "lb-1"], true) :=
  (deleteNaverCloudLB_lb_first ⟨false, fun _ => true⟩
      ⟨"NodePort", true, [naverLBFinalizer],
        [(lbIdKey, "lb-1"), (targetGroupsKey, "tg-1,tg-2")], []⟩
      "lb-1" (by decide) (by decide)).2 rfl

/-! ### Claim C6: teardown tolerates target-group deletion failures -/

/-- C6: when the load-balancer deletion succeeds (or no `lb-id`
annotation is present), teardown returns success even if target-group
deletions fail; every non-empty id in the `target-groups` annotation
receives its deletion call, and neither the calls nor the result depend
on the target-group deletion outcomes. -/
theorem deleteNaverCloudLB_partial_tolerant (env : TeardownEnv) (service : KService)
    (h : env.deleteLBOk = true ∨ annLookup service.annotations lbIdKey = none) :
    (deleteNaverCloudLB env service).2 = false
    ∧ (∀ tgID ∈ annTargetGroupIds service,
        CloudCall.deleteTG tgID ∈ (deleteNaverCloudLB env service).1)
    ∧ (∀ f, deleteNaverCloudLB { env with deleteTGOk := f } service
        = deleteNaverCloudLB env service) := by
  have hok : env.deleteLBOk = true ∨ annLookup service.annotations lbIdKey = none := h
  refine ⟨?_, ?_, fun f => rfl⟩
  · unfold deleteNaverCloudLB
    cases hlb : annLookup service.annotations lbIdKey with
    | none =>
      cases htg : annLookup service.annotations targetGroupsKey <;> simp [htg]
    | some lbID =>
      have hok1 : env.deleteLBOk = true := by
        cases hok with
        | inl h1 => exact h1
        | inr h2 => rw [hlb] at h2; cases h2
      cases htg : annLookup service.annotations targetGroupsKey <;> simp [htg, hok1]
  · intro tgID htgID
    unfold annTargetGroupIds at htgID
    cases htg : annLookup service.annotations targetGroupsKey with
    | none => rw [htg] at htgID; cases htgID
    | some tgStr =>
      rw [htg] at htgID
      dsimp only at htgID
      by_cases hts : tgStr = ""
      · rw [if_neg (by simp [hts])] at htgID; cases htgID
      · rw [if_pos hts] at htgID
        obtain ⟨hmem, hneq⟩ := List.mem_filter.mp htgID
        have hne2 : tgID ≠ "" := by simpa using hneq
        have hmem2 : CloudCall.deleteTG tgID ∈
            (goSplitComma tgStr).filterMap
              (fun t => if t = "" then none else some (CloudCall.deleteTG t)) :=
          List.mem_filterMap.mpr ⟨tgID, hmem, by rw [if_neg hne2]⟩
        unfold deleteNaverCloudLB
        cases hlb : annLookup service.annotations lbIdKey with
        | none =>
          simp only [hlb, htg, Option.isNone_none, Option.isNone_some, Bool.and_false,
            Bool.false_eq_true, if_false, Option.getD_none, Option.getD_some,
            Option.isSome_none, Option.isSome_some, Bool.false_and, Bool.true_and]
          rw [if_pos (by simp [hts])]
          simpa using hmem2
        | some lbID =>
          have hok1 : env.deleteLBOk = true := by
            cases hok with
            | inl h1 => exact h1
            | inr h2 => rw [hlb] at h2; cases h2
          simp only [hlb, htg, Option.isNone_some, Bool.false_and, Bool.false_eq_true,
            if_false, Option.getD_some, Option.isSome_some, Bool.true_and, hok1,
            Bool.not_true, Bool.and_false]
          refine List.mem_append_right _ ?_
          rw [if_pos (by simp [hts])]
          exact hmem2

/-- Witness for C6: both annotations present, two target groups, the
per-target-group deletions failing. -/
theorem deleteNaverCloudLB_partial_tolerant_witness :
    (deleteNaverCloudLB ⟨true, fun _ => false⟩
        ⟨"LoadBalancer", true, [naverLBFinalizer],
          [(lbIdKey, "lb-1"), (targetGroupsKey, "tg-1,tg-2")], []⟩).2 = false
    ∧ CloudCall.deleteTG "tg-2" ∈ (deleteNaverCloudLB ⟨true, fun _ => false⟩
        ⟨"LoadBalancer", true, [naverLBFinalizer],
          [(lbIdKey, "lb-1"), (targetGroupsKey, "tg-1,tg-2")], []⟩).1 := by
  have hmain := deleteNaverCloudLB_partial_tolerant ⟨true, fun _ => false⟩
    ⟨"LoadBalancer", true, [naverLBFinalizer],
      [(lbIdKey, "lb-1"), (targetGroupsKey, "tg-1,tg-2")], []⟩ (Or.inl rfl)
  exact ⟨hmain.1, hmain.2.1 ("tg-2") (by decide)⟩

/-! ### Claims C5 and C10: external address resolution -/

theorem lbDefaultDomain_ne_empty (lbID : String) : lbDefaultDomain lbID ≠ "" := by
  intro hcontra
  have hlen := congrArg String.length hcontra
  rw [lbDefaultDomain, String.length_append, String.length_append] at hlen
  have h1 : ("lb-" : String).length = 3 := rfl
  have h2 : (".ncloud.com" : String).length = 11 := rfl
  have h3 : ("" : String).length = 0 := rfl
  rw [h1, h2, h3] at hlen
  omega

theorem ipListOrDefault_ne_empty (inst : LBInstanceM) (lbID : String) :
    ipListOrDefault inst lbID ≠ "" := by
  unfold ipListOrDefault
  split
  · split
    · split
      · assumption
      · exact lbDefaultDomain_ne_empty lbID
    · exact lbDefaultDomain_ne_empty lbID
  · exact lbDefaultDomain_ne_empty lbID

theorem addressWaterfall_ne_empty (inst : LBInstanceM) (lbID : String) :
    addressWaterfall inst lbID ≠ "" := by
  unfold addressWaterfall
  split
  · split
    · assumption
    · exact ipListOrDefault_ne_empty inst lbID
  · exact ipListOrDefault_ne_empty inst lbID

/-- C5 (counterexample): with status `RUN`, no domain, and an IP list
whose first entry is empty but whose second entry is `1.2.3.4`, the code
returns the synthesized default domain, not the first NON-EMPTY entry
`1.2.3.4` that the claim prescribes. -/
theorem getLoadBalancerExternalAddress_counter_C5 :
    getLoadBalancerExternalAddress
        (.detail [⟨some "RUN", none, some [some "", some "1.2.3.4"]⟩]) "77"
      = some "lb-77.ncloud.com"
    ∧ claimAddressPriority ⟨some "RUN", none, some [some "", some "1.2.3.4"]⟩ "77"
      = "1.2.3.4"
    ∧ getLoadBalancerExternalAddress
        (.detail [⟨some "RUN", none, some [some "", some "1.2.3.4"]⟩]) "77"
      ≠ some (claimAddressPriority
          ⟨some "RUN", none, some [some "", some "1.2.3.4"]⟩ "77") := by
  refine ⟨rfl, rfl, ?_⟩
  intro hcontra
  have := Option.some.inj hcontra
  exact absurd (congrArg String.length this) (by decide)

/-- C5 (amended): with a successful detail fetch, a non-empty instance
list and a present status object, the result is an error exactly when
the status code is neither `RUN` nor `USED`; when the check passes the
result is a non-empty address: the domain if non-empty, else the FIRST
entry of the IP list if present and non-empty (later entries are not
consulted), else the synthesized `lb-<id>.ncloud.com`. -/
theorem getLoadBalancerExternalAddress_spec (inst : LBInstanceM)
    (rest : List LBInstanceM) (lbID code : String)
    (hst : inst.statusCode = some code) :
    (getLoadBalancerExternalAddress (.detail (inst :: rest)) lbID = none ↔
      (code ≠ "RUN" ∧ code ≠ "USED"))
    ∧ (code = "RUN" ∨ code = "USED" →
        getLoadBalancerExternalAddress (.detail (inst :: rest)) lbID
          = some (addressWaterfall inst lbID)
        ∧ addressWaterfall inst lbID ≠ ""
        ∧ (∀ d, inst.domain = some d → d ≠ "" → addressWaterfall inst lbID = d)
        ∧ (∀ ip tl, (inst.domain = none ∨ inst.domain = some "") →
            inst.ipList = some (some ip :: tl) → ip ≠ "" →
            addressWaterfall inst lbID = ip)
        ∧ ((inst.domain = none ∨ inst.domain = some "") →
            (inst.ipList = none ∨ inst.ipList = some [] ∨
              (∃ tl, inst.ipList = some (none :: tl)) ∨
              (∃ tl, inst.ipList = some (some "" :: tl))) →
            addressWaterfall inst lbID = lbDefaultDomain lbID)) := by
  constructor
  · unfold getLoadBalancerExternalAddress
    dsimp only
    rw [hst]
    dsimp only
    constructor
    · intro hnone
      by_cases h1 : code = "RUN"
      · rw [if_neg (by simp [h1])] at hnone; cases hnone
      · by_cases h2 : code = "USED"
        · rw [if_neg (by simp [h2])] at hnone; cases hnone
        · exact ⟨h1, h2⟩
    · intro ⟨h1, h2⟩
      rw [if_pos (by simp [h1, h2])]
  · intro hcode
    refine ⟨?_, addressWaterfall_ne_empty inst lbID, ?_, ?_, ?_⟩
    · unfold getLoadBalancerExternalAddress
      dsimp only
      rw [hst]
      dsimp only
      rw [if_neg (by rcases hcode with hc | hc <;> simp [hc])]
    · intro d hd hdne
      unfold addressWaterfall
      rw [hd]
      dsimp only
      rw [if_pos hdne]
    · intro ip tl hdom hip hipne
      unfold addressWaterfall ipListOrDefault
      rcases hdom with hd | hd <;> rw [hd, hip] <;> dsimp only <;>
        simp [hipne]
    · intro hdom hip
      unfold addressWaterfall ipListOrDefault
      rcases hdom with hd | hd <;> rw [hd] <;> dsimp only <;>
      · rcases hip with h1 | h1 | ⟨tl, h1⟩ | ⟨tl, h1⟩ <;> rw [h1] <;> simp

/-- Witness for C5 (amended) at a `USED` load balancer exposing a
domain. -/
theorem getLoadBalancerExternalAddress_spec_witness :
    getLoadBalancerExternalAddress
        (.detail [⟨some "USED", some "lb.example.com", none⟩]) "9"
      = some (addressWaterfall ⟨some "USED", some "lb.example.com", none⟩ "9")
    ∧ addressWaterfall ⟨some "USED", some "lb.example.com", none⟩ "9" ≠ "" :=
  let hm := (getLoadBalancerExternalAddress_spec
    ⟨some "USED", some "lb.example.com", none⟩ [] "9" "USED" rfl).2 (Or.inr rfl)
  ⟨hm.1, hm.2.1⟩

/-- C10: when the first instance of the detail response carries no
status object, the readiness check is skipped entirely and the function
still returns a (non-empty) address through the domain/IP/fallback
waterfall, never the not-ready error. -/
theorem getLoadBalancerExternalAddress_nil_status (inst : LBInstanceM)
    (rest : List LBInstanceM) (lbID : String) (h : inst.statusCode = none) :
    getLoadBalancerExternalAddress (.detail (inst :: rest)) lbID
      = some (addressWaterfall inst lbID)
    ∧ addressWaterfall inst lbID ≠ "" := by
  unfold getLoadBalancerExternalAddress
  dsimp only
  rw [h]
  exact ⟨rfl, addressWaterfall_ne_empty inst lbID⟩

/-- Witness for C10 at an instance with no status object and an empty
waterfall (forcing the synthesized fallback). -/
theorem getLoadBalancerExternalAddress_nil_status_witness :
    getLoadBalancerExternalAddress (.detail [⟨none, none, none⟩]) "42"
      = some (addressWaterfall ⟨none, none, none⟩ "42")
    ∧ addressWaterfall ⟨none, none, none⟩ "42" ≠ "" :=
  getLoadBalancerExternalAddress_nil_status ⟨none, none, none⟩ [] "42" rfl

/-! ### Claim C9: annotation writer is idempotent and frame-preserving -/

theorem annLookup_annSet_ne (ann : List (String × String)) (k v k2 : String)
    (h : k2 ≠ k) : annLookup (annSet ann k v) k2 = annLookup ann k2 := by
  induction ann with
  | nil =>
    rw [annSet, annLookup, annLookup, if_neg (fun hc => h hc.symm)]
    rfl
  | cons kv rest ih =>
    by_cases hk : kv.1 = k
    · rw [annSet, if_pos hk, annLookup, annLookup, if_neg (fun hc => h hc.symm),
        if_neg (by rw [hk]; exact fun hc => h hc.symm)]
    · rw [annSet, if_neg hk, annLookup, annLookup]
      by_cases hk2 : kv.1 = k2
      · rw [if_pos hk2, if_pos hk2]
      · rw [if_neg hk2, if_neg hk2, ih]

theorem updateAnnFold_nochange (ann : List (String × String))
    (req : List (String × String))
    (h : ∀ kv ∈ req, goMapGet ann kv.1 = kv.2) :
    req.foldl
      (fun (acc : List (String × String) × Bool) kv =>
        if goMapGet acc.1 kv.1 ≠ kv.2 then (annSet acc.1 kv.1 kv.2, true) else acc)
      (ann, false) = (ann, false) := by
  induction req with
  | nil => rfl
  | cons kv rest ih =>
    rw [List.foldl_cons, if_neg (by simp [h kv (List.mem_cons_self kv rest)])]
    exact ih (fun kv2 hkv2 => h kv2 (List.mem_cons_of_mem kv hkv2))

theorem updateAnnFold_frame (k : String) (req : List (String × String)) :
    ∀ acc : List (String × String) × Bool, (∀ kv ∈ req, kv.1 ≠ k) →
      annLookup (req.foldl
        (fun (acc : List (String × String) × Bool) kv =>
          if goMapGet acc.1 kv.1 ≠ kv.2 then (annSet acc.1 kv.1 kv.2, true) else acc)
        acc).1 k = annLookup acc.1 k := by
  induction req with
  | nil => intro acc h; rfl
  | cons kv rest ih =>
    intro acc h
    rw [List.foldl_cons]
    split
    · rw [ih _ (fun kv2 hkv2 => h kv2 (List.mem_cons_of_mem kv hkv2))]
      exact annLookup_annSet_ne acc.1 kv.1 kv.2 k
        (h kv (List.mem_cons_self kv rest)).symm
    · exact ih _ (fun kv2 hkv2 => h kv2 (List.mem_cons_of_mem kv hkv2))

/-- C9: `updateServiceAnnotations` issues no write when every requested
key already carries its requested value on the freshly fetched object;
when it does write, annotation keys outside the request and every other
field of the object are left unchanged. -/
theorem updateServiceAnnotations_spec (latest : KService)
    (req : List (String × String)) :
    ((∀ kv ∈ req, goMapGet latest.annotations kv.1 = kv.2) →
      updateServiceAnnotations latest req = (latest, false))
    ∧ (∀ k, (∀ kv ∈ req, kv.1 ≠ k) →
        annLookup (updateServiceAnnotations latest req).1.annotations k
          = annLookup latest.annotations k)
    ∧ (updateServiceAnnotations latest req).1.svcType = latest.svcType
    ∧ (updateServiceAnnotations latest req).1.deletionTimestamp
        = latest.deletionTimestamp
    ∧ (updateServiceAnnotations latest req).1.finalizers = latest.finalizers
    ∧ (updateServiceAnnotations latest req).1.ingress = latest.ingress := by
  refine ⟨?_, ?_, ?_, ?_, ?_, ?_⟩
  · intro h
    simp only [updateServiceAnnotations]
    rw [updateAnnFold_nochange latest.annotations req h]
    rfl
  · intro k hk
    simp only [updateServiceAnnotations]
    split
    · exact updateAnnFold_frame k req (latest.annotations, false) hk
    · rfl
  all_goals
    simp only [updateServiceAnnotations]
    split <;> rfl

/-- Witness for C9: a request whose single key already carries the
requested value triggers no write, and an unrelated key survives a
genuine write. -/
theorem updateServiceAnnotations_spec_witness :
    updateServiceAnnotations ⟨"LoadBalancer", false, [], [(lbIdKey, "lb-1")], []⟩
        [(lbIdKey, "lb-1")]
      = (⟨"LoadBalancer", false, [], [(lbIdKey, "lb-1")], []⟩, false)
    ∧ annLookup (updateServiceAnnotations
          ⟨"LoadBalancer", false, [], [(lbIdKey, "lb-1"), ("other", "v")], []⟩
          [(lbIdKey, "lb-2")]).1.annotations ("other")
      = annLookup [(lbIdKey, "lb-1"), ("other", "v")] "other" :=
  ⟨(updateServiceAnnotations_spec ⟨"LoadBalancer", false, [], [(lbIdKey, "lb-1")], []⟩
      [(lbIdKey, "lb-1")]).1 (by decide),
   (updateServiceAnnotations_spec
      ⟨"LoadBalancer", false, [], [(lbIdKey, "lb-1"), ("other", "v")], []⟩
      [(lbIdKey, "lb-2")]).2.1 ("other") (by decide)⟩

/-! ### Claim C7: first reconcile adds the finalizer and stops -/

/-- C7: for an existing LoadBalancer-typed Service that is not being
deleted and lacks the finalizer, with the persisting update succeeding,
`Reconcile` writes the object with the finalizer appended and returns
success with no requeue, without invoking the provisioner and without
touching the status. -/
theorem reconcile_adds_finalizer (env : ReconcileEnv) (svc : KService)
    (hget : env.getService = .found svc)
    (htype : svc.svcType = "LoadBalancer")
    (hdel : svc.deletionTimestamp = false)
    (hfin : containsString svc.finalizers naverLBFinalizer = false)
    (hupd : env.updateOk = true) :
    Reconcile env =
      { finalizerUpdate :=
          some { svc with finalizers := svc.finalizers ++ [naverLBFinalizer] } } := by
  unfold Reconcile
  rw [hget]
  dsimp only
  rw [if_neg (by simp [htype]), if_neg (by simp [hdel]), if_pos (by simp [hfin]),
    if_pos hupd]

/-- Witness for C7 at a concrete finalizer-less LoadBalancer Service. -/
theorem reconcile_adds_finalizer_witness :
    Reconcile
        { getService := .found ⟨"LoadBalancer", false, [], [], []⟩,
          teardown := ⟨true, fun _ => true⟩, updateOk := true,
          provision := none, getLatest := .notFound, statusUpdateOk := true }
      = { finalizerUpdate :=
            some ⟨"LoadBalancer", false, [naverLBFinalizer], [], []⟩ } :=
  reconcile_adds_finalizer
    { getService := .found ⟨"LoadBalancer", false, [], [], []⟩,
      teardown := ⟨true, fun _ => true⟩, updateOk := true,
      provision := none, getLatest := .notFound, statusUpdateOk := true }
    ⟨"LoadBalancer", false, [], [], []⟩ rfl rfl rfl (by decide) rfl

/-! ### Claim C8: status projection shape -/

/-- C8: whenever a reconcile in which the provisioner reported `ACTIVE`
writes the Service status, it writes exactly one ingress entry, built
from a non-empty external address: `{ip: addr}` when the address
matches the dotted-quad pattern, `{hostname: addr}` otherwise. -/
theorem reconcile_status_projection (env : ReconcileEnv)
    (lbSt : LoadBalancerStatus) (l : List IngressM)
    (hp : env.provision = some lbSt)
    (hact : lbSt.provisioningStatus = "ACTIVE")
    (hw : (Reconcile env).statusWritten = some l) :
    lbSt.externalIP ≠ ""
    ∧ l = [mkIngress lbSt.externalIP]
    ∧ (ipPatternMatch lbSt.externalIP = true →
        l = [{ ip := lbSt.externalIP, hostname := "" }])
    ∧ (ipPatternMatch lbSt.externalIP = false →
        l = [{ ip := "", hostname := lbSt.externalIP }]) := by
  have hmain : lbSt.externalIP ≠ "" ∧ l = [mkIngress lbSt.externalIP] := by
    unfold Reconcile at hw
    cases hget : env.getService with
    | notFound => rw [hget] at hw; cases hw
    | getError => rw [hget] at hw; cases hw
    | found svc =>
      rw [hget] at hw
      dsimp only at hw
      split at hw
      · cases hw
      · split at hw
        · split at hw
          · split at hw
            · cases hw
            · split at hw <;> cases hw
          · cases hw
        · split at hw
          · split at hw <;> cases hw
          · rw [hp] at hw
            dsimp only at hw
            rw [if_neg (by simp [hact]), if_neg (by simp [hact])] at hw
            split at hw
            · rename_i hext
              refine ⟨hext, ?_⟩
              cases hlat : env.getLatest with
              | notFound => rw [hlat] at hw; cases hw
              | getError => rw [hlat] at hw; cases hw
              | found latest =>
                rw [hlat] at hw
                dsimp only at hw
                split at hw
                · split at hw
                  · exact (Option.some.inj hw).symm
                  · cases hw
                · cases hw
            · cases hw
  refine ⟨hmain.1, hmain.2, ?_, ?_⟩
  · intro hip
    rw [hmain.2]
    unfold mkIngress
    rw [if_pos hip]
  · intro hip
    rw [hmain.2]
    unfold mkIngress
    rw [if_neg (by simp [hip])]

/-- Witness for C8 at a concrete ACTIVE reconcile that writes a
dotted-quad address. -/
theorem reconcile_status_projection_witness :
    ("10.0.0.1" : String) ≠ ""
    ∧ [mkIngress "10.0.0.1"] = [mkIngress "10.0.0.1"]
    ∧ (ipPatternMatch "10.0.0.1" = true →
        [mkIngress "10.0.0.1"] = [{ ip := "10.0.0.1", hostname := "" }])
    ∧ (ipPatternMatch "10.0.0.1" = false →
        [mkIngress "10.0.0.1"] = [{ ip := "", hostname := "10.0.0.1" }]) := by
  have h := reconcile_status_projection
    { getService := .found ⟨"LoadBalancer", false, [naverLBFinalizer], [], []⟩,
      teardown := ⟨true, fun _ => true⟩, updateOk := true,
      provision := some ⟨"ACTIVE", "lb-1", "10.0.0.1"⟩,
      getLatest := .found ⟨"LoadBalancer", false, [naverLBFinalizer], [], []⟩,
      statusUpdateOk := true }
    ⟨"ACTIVE", "lb-1", "10.0.0.1"⟩ [mkIngress "10.0.0.1"] rfl rfl (by decide)
  exact h

/-! ### Claim C1: the non-LoadBalancer no-op branch ignores annotations -/

/-- C1: the code takes the ignored no-op branch for EVERY
non-LoadBalancer Service, even one carrying the `lb-id` and
`target-groups` annotations — both when idle and when the Service is
being deleted with the finalizer still present — so no teardown, no
finalizer handling and no provisioning happens on such objects.  This
exhibits the divergence from the claim (and from the predicate logic
documented in the repository's own `predicate_test.go`). -/
theorem reconcile_ignores_annotated_nonLB :
    Reconcile
        { getService := .found ⟨"NodePort", false, [naverLBFinalizer],
            [(lbIdKey, "lb-12345"), (targetGroupsKey, "tg-1,tg-2")], []⟩,
          teardown := ⟨true, fun _ => true⟩, updateOk := true,
          provision := none, getLatest := .notFound, statusUpdateOk := true }
      = { tookIgnoredBranch := true }
    ∧ Reconcile
        { getService := .found ⟨"NodePort", true, [naverLBFinalizer],
            [(lbIdKey, "lb-12345"), (targetGroupsKey, "tg-1,tg-2")], []⟩,
          teardown := ⟨true, fun _ => true⟩, updateOk := true,
          provision := none, getLatest := .notFound, statusUpdateOk := true }
      = { tookIgnoredBranch := true } := by
  constructor <;> rfl

/-! ### Claim C4: the naming function -/

theorem mem_collapsePairs {c : Char} {m : List Char} (h : c ∈ collapsePairs m) :
    c ∈ m := by
  induction m using collapsePairs.induct with
  | case1 => cases h
  | case2 d => exact h
  | case3 a b rest hdd ih =>
    simp only [collapsePairs, hdd, if_true] at h
    rcases List.mem_cons.mp h with hc | hc
    · have ha : a = '-' := by
        have h2 := (Bool.and_eq_true _ _).mp hdd
        exact of_decide_eq_true h2.1
      rw [hc, ← ha]
      exact List.mem_cons_self _ _
    · exact List.mem_cons_of_mem _ (List.mem_cons_of_mem _ (ih hc))
  | case4 a b rest hdd ih =>
    simp only [collapsePairs, hdd, Bool.false_eq_true, if_false] at h
    rcases List.mem_cons.mp h with hc | hc
    · rw [hc]; exact List.mem_cons_self _ _
    · exact List.mem_cons_of_mem _ (ih hc)

theorem hasDD_collapseLoop (l : List Char) : hasDD (collapseLoop l) = false := by
  induction l using collapseLoop.induct with
  | case1 l hl ih =>
    rw [collapseLoop, dif_pos hl]
    exact ih
  | case2 l hl =>
    rw [collapseLoop, dif_neg hl]
    simpa using hl

theorem mem_collapseLoop {c : Char} {l : List Char} (h : c ∈ collapseLoop l) :
    c ∈ l := by
  induction l using collapseLoop.induct with
  | case1 l hl ih =>
    rw [collapseLoop, dif_pos hl] at h
    exact mem_collapsePairs (ih h)
  | case2 l hl =>
    rw [collapseLoop, dif_neg hl] at h
    exact h

theorem hasDD_cons_false {c : Char} {l : List Char} (h : hasDD (c :: l) = false) :
    hasDD l = false := by
  cases l with
  | nil => rfl
  | cons d rest =>
    rw [hasDD] at h
    exact (Bool.or_eq_false_iff.mp h).2

theorem hasDD_append_right {l1 l2 : List Char} (h : hasDD (l1 ++ l2) = false) :
    hasDD l2 = false := by
  induction l1 with
  | nil => exact h
  | cons c rest ih => exact ih (hasDD_cons_false h)

theorem hasDD_append_left {l1 l2 : List Char} (h : hasDD (l1 ++ l2) = false) :
    hasDD l1 = false := by
  induction l1 with
  | nil => rfl
  | cons c rest ih =>
    cases rest with
    | nil => rfl
    | cons d rest2 =>
      have h2 : hasDD (c :: d :: (rest2 ++ l2)) = false := h
      rw [hasDD] at h2
      rcases Bool.or_eq_false_iff.mp h2 with ⟨ha, hb⟩
      rw [hasDD, Bool.or_eq_false_iff]
      exact ⟨ha, ih hb⟩

theorem hasDD_pair_append : ∀ ys : List Char, hasDD (ys ++ ['-', '-']) = true := by
  intro ys
  induction ys with
  | nil => rfl
  | cons c rest ih =>
    cases rest with
    | nil => simp [hasDD]
    | cons d rest2 =>
      have h2 : c :: d :: rest2 ++ ['-', '-'] = c :: d :: (rest2 ++ ['-', '-']) := rfl
      rw [h2, hasDD]
      have h3 : hasDD (d :: (rest2 ++ ['-', '-'])) = true := ih
      rw [h3, Bool.or_true]

theorem dropLeadingDashes_suffix (l : List Char) :
    ∃ t, t ++ dropLeadingDashes l = l := by
  induction l with
  | nil => exact ⟨[], rfl⟩
  | cons c rest ih =>
    by_cases hc : c = '-'
    · obtain ⟨t, ht⟩ := ih
      exact ⟨c :: t, by rw [dropLeadingDashes, if_pos hc, List.cons_append, ht]⟩
    · exact ⟨[], by rw [dropLeadingDashes, if_neg hc]; rfl⟩

theorem dropLeadingDashes_head {l : List Char} {c : Char} {t : List Char}
    (h : dropLeadingDashes l = c :: t) : c ≠ '-' := by
  induction l with
  | nil => cases h
  | cons d rest ih =>
    by_cases hd : d = '-'
    · rw [dropLeadingDashes, if_pos hd] at h
      exact ih h
    · rw [dropLeadingDashes, if_neg hd] at h
      injection h with h1 _
      rw [← h1]
      exact hd

theorem trimDashes_front (l : List Char) :
    ∃ s, trimDashes l ++ s = dropLeadingDashes l := by
  obtain ⟨t, ht⟩ := dropLeadingDashes_suffix (dropLeadingDashes l).reverse
  refine ⟨t.reverse, ?_⟩
  have h2 := congrArg List.reverse ht
  simpa [trimDashes] using h2

theorem isLowerAlpha_ne_dash {c : Char} (h : isLowerAlpha c = true) : c ≠ '-' := by
  intro hc
  rw [hc] at h
  exact absurd h (by decide)

theorem allowed_not_dash {c : Char} (ha : isAllowed c = true) (hd : c ≠ '-') :
    (isLowerAlpha c || isDigitCh c) = true := by
  unfold isAllowed at ha
  cases h1 : (isLowerAlpha c || isDigitCh c) with
  | true => rfl
  | false =>
    rw [h1, Bool.false_or] at ha
    exact absurd (of_decide_eq_true ha) hd

theorem hasDD_tgDash_append (l : List Char) (hdd : hasDD l = false)
    (hhead : ∀ c t, l = c :: t → c ≠ '-') : hasDD (tgDash ++ l) = false := by
  cases l with
  | nil => rfl
  | cons c t =>
    have hc : c ≠ '-' := hhead c t rfl
    show hasDD ('t' :: 'g' :: '-' :: c :: t) = false
    rw [hasDD, hasDD, hasDD]
    simp [hc, hdd]

theorem matchesNamePattern_of (l : List Char) (c z : Char)
    (hhead : l.head? = some c) (hc : isLowerAlpha c = true)
    (hlast : l.getLast? = some z) (hz : (isLowerAlpha z || isDigitCh z) = true)
    (hmem : ∀ x ∈ l, isAllowed x = true) (hlen : 2 ≤ l.length) :
    matchesNamePattern l = true := by
  unfold matchesNamePattern
  rw [hhead, hlast]
  simp [hc, hz, List.all_eq_true.mpr hmem, hlen]

theorem tgDash_allowed : ∀ x ∈ tgDash, isAllowed x = true := by decide

theorem sanitizeFinish_shape (n2 : List Char)
    (hmem : ∀ c ∈ n2, isAllowed c = true)
    (hdd : hasDD n2 = false)
    (hhead : ∀ c t, n2 = c :: t → c ≠ '-') :
    matchesNamePattern (sanitizeFinish n2) = true
    ∧ hasDD (sanitizeFinish n2) = false
    ∧ 3 ≤ (sanitizeFinish n2).length ∧ (sanitizeFinish n2).length ≤ 30 := by
  obtain ⟨c3, t3, hn3, h3low, h3mem, h3dd⟩ :
      ∃ c3 t3, (if n2.isEmpty || !headIsLower n2 then tgDash ++ n2 else n2) = c3 :: t3
        ∧ isLowerAlpha c3 = true
        ∧ (∀ x ∈ (if n2.isEmpty || !headIsLower n2 then tgDash ++ n2 else n2),
            isAllowed x = true)
        ∧ hasDD (if n2.isEmpty || !headIsLower n2 then tgDash ++ n2 else n2)
            = false := by
    by_cases hcond : (n2.isEmpty || !headIsLower n2) = true
    · rw [if_pos hcond]
      cases n2 with
      | nil => exact ⟨'t', ['g', '-'], rfl, by decide, by decide, by decide⟩
      | cons c t =>
        refine ⟨'t', 'g' :: '-' :: c :: t, rfl, by decide, ?_, ?_⟩
        · intro x hx
          rcases List.mem_append.mp hx with h | h
          · exact tgDash_allowed x h
          · exact hmem x h
        · exact hasDD_tgDash_append _ hdd hhead
    · rw [if_neg hcond]
      have hfalse : (n2.isEmpty || !headIsLower n2) = false := by simpa using hcond
      obtain ⟨h1, h2⟩ := Bool.or_eq_false_iff.mp hfalse
      have hhl : headIsLower n2 = true := by simpa using h2
      cases n2 with
      | nil => exact absurd hhl (by decide)
      | cons c t => exact ⟨c, t, rfl, hhl, hmem, hdd⟩
  unfold sanitizeFinish
  dsimp only
  rw [hn3] at h3mem h3dd ⊢
  rw [show List.take 30 (c3 :: t3) = c3 :: List.take 29 t3 from rfl]
  have h4mem : ∀ x ∈ c3 :: List.take 29 t3, isAllowed x = true := by
    intro x hx
    rcases List.mem_cons.mp hx with h | h
    · exact h3mem x (by rw [h]; exact List.mem_cons_self _ _)
    · exact h3mem x (List.mem_cons_of_mem _ (List.mem_of_mem_take h))
  have h4dd : hasDD (c3 :: List.take 29 t3) = false := by
    have h1 : hasDD (List.take 30 (c3 :: t3) ++ List.drop 30 (c3 :: t3)) = false := by
      rw [List.take_append_drop]; exact h3dd
    exact hasDD_append_left h1
  have h4len : (c3 :: List.take 29 t3).length ≤ 30 := by
    have h29 : (List.take 29 t3).length ≤ 29 := by
      rw [List.length_take]; exact min_le_left _ _
    simp only [List.length_cons]
    omega
  generalize hT : List.take 29 t3 = T at h4mem h4dd h4len ⊢
  have h5 : ∃ t5, trimSuffixDash (c3 :: T) = c3 :: t5
      ∧ (∀ x ∈ c3 :: t5, isAllowed x = true)
      ∧ hasDD (c3 :: t5) = false
      ∧ (∀ z, (c3 :: t5).getLast? = some z → z ≠ '-')
      ∧ (c3 :: t5).length ≤ 30 := by
    unfold trimSuffixDash
    by_cases hlast : (c3 :: T).getLast? = some '-'
    · rw [if_pos hlast]
      cases T with
      | nil =>
        exfalso
        have hc3 : c3 = '-' := by simpa using hlast
        exact isLowerAlpha_ne_dash h3low hc3
      | cons d tT =>
        have hsplit : (c3 :: d :: tT).dropLast ++ ['-'] = c3 :: d :: tT :=
          List.dropLast_append_getLast? '-' (Option.mem_def.mpr hlast)
        have hdl : (c3 :: d :: tT).dropLast = c3 :: (d :: tT).dropLast := rfl
        refine ⟨(d :: tT).dropLast, hdl, ?_, ?_, ?_, ?_⟩
        · intro x hx
          apply h4mem
          rw [← hsplit]
          rw [← hdl] at hx
          exact List.mem_append_left _ hx
        · rw [← hdl]
          refine @hasDD_append_left _ ['-'] ?_
          rw [hsplit]
          exact h4dd
        · intro z hz hcontra
          rw [← hdl] at hz
          obtain ⟨ys, hys⟩ := List.getLast?_eq_some_iff.mp hz
          rw [hcontra] at hys
          have hpair : c3 :: d :: tT = ys ++ ['-', '-'] := by
            rw [← hsplit, hys, List.append_assoc]
            rfl
          rw [hpair, hasDD_pair_append ys] at h4dd
          exact absurd h4dd (by decide)
        · rw [← hdl, List.length_dropLast]
          simp only [List.length_cons] at h4len ⊢
          omega
    · rw [if_neg hlast]
      refine ⟨T, rfl, h4mem, h4dd, ?_, h4len⟩
      intro z hz hcontra
      rw [hcontra] at hz
      exact hlast hz
  obtain ⟨t5, hn5, h5mem, h5dd, h5last, h5len⟩ := h5
  rw [hn5]
  obtain ⟨z5, hz5⟩ : ∃ z, (c3 :: t5).getLast? = some z := by
    cases h : (c3 :: t5).getLast? with
    | none =>
      exfalso
      have := List.getLast?_isSome.mpr (List.cons_ne_nil c3 t5)
      rw [h] at this
      exact absurd this (by decide)
    | some z => exact ⟨z, rfl⟩
  have hz5d : z5 ≠ '-' := h5last z5 hz5
  have hz5mem : isAllowed z5 = true := by
    obtain ⟨ys, hys⟩ := List.getLast?_eq_some_iff.mp hz5
    exact h5mem z5 (by rw [hys]; exact List.mem_append_right ys (List.mem_cons_self _ _))
  have hz5ok : (isLowerAlpha z5 || isDigitCh z5) = true := allowed_not_dash hz5mem hz5d
  by_cases hfin : (c3 :: t5).length < 3
  · rw [if_pos hfin]
    have hlen6 : (tgDash ++ (c3 :: t5)).length = 3 + (c3 :: t5).length := by
      rw [List.length_append]
      rfl
    rw [if_neg (by omega)]
    refine ⟨?_, ?_, by omega, by simp only [List.length_cons] at hlen6 hfin ⊢; omega⟩
    · apply matchesNamePattern_of _ 't' z5
      · rfl
      · decide
      · rw [List.getLast?_append, hz5]; rfl
      · exact hz5ok
      · intro x hx
        rcases List.mem_append.mp hx with h | h
        · exact tgDash_allowed x h
        · exact h5mem x h
      · omega
    · refine hasDD_tgDash_append _ h5dd ?_
      intro c t h
      injection h with h1 _
      rw [← h1]
      exact isLowerAlpha_ne_dash h3low
  · rw [if_neg hfin]
    refine ⟨?_, h5dd, by omega, h5len⟩
    apply matchesNamePattern_of _ c3 z5
    · rfl
    · exact h3low
    · exact hz5
    · exact hz5ok
    · exact h5mem
    · omega

/-- C4: `generateValidName` is deterministic, and its output always
matches `^[a-z][a-z0-9-]*[a-z0-9]$`, contains no two consecutive
hyphens, and has length between 3 and 30. -/
theorem generateValidName_spec (pre ns svc sfx : List Char) :
    generateValidName pre ns svc sfx = generateValidName pre ns svc sfx
    ∧ matchesNamePattern (generateValidName pre ns svc sfx) = true
    ∧ hasDD (generateValidName pre ns svc sfx) = false
    ∧ 3 ≤ (generateValidName pre ns svc sfx).length
    ∧ (generateValidName pre ns svc sfx).length ≤ 30 := by
  unfold generateValidName sanitizeTail
  have hw : ∀ c ∈ ((List.intercalate ['-']
      (buildParts pre ns svc sfx)).map Char.toLower).filter (fun c => isAllowed c),
      isAllowed c = true := fun c hc => List.of_mem_filter hc
  have hmem2 : ∀ c ∈ trimDashes (collapseLoop (((List.intercalate ['-']
      (buildParts pre ns svc sfx)).map Char.toLower).filter (fun c => isAllowed c))),
      isAllowed c = true := by
    intro c hc
    obtain ⟨s2, hs2⟩ := trimDashes_front (collapseLoop _)
    obtain ⟨t2, ht2⟩ := dropLeadingDashes_suffix (collapseLoop _)
    apply hw
    apply mem_collapseLoop
    rw [← ht2]
    apply List.mem_append_right
    rw [← hs2]
    exact List.mem_append_left _ hc
  have hdd2 : hasDD (trimDashes (collapseLoop (((List.intercalate ['-']
      (buildParts pre ns svc sfx)).map Char.toLower).filter (fun c => isAllowed c))))
      = false := by
    obtain ⟨s2, hs2⟩ := trimDashes_front (collapseLoop _)
    obtain ⟨t2, ht2⟩ := dropLeadingDashes_suffix (collapseLoop _)
    refine @hasDD_append_left _ s2 ?_
    rw [hs2]
    refine @hasDD_append_right t2 _ ?_
    rw [ht2]
    exact hasDD_collapseLoop _
  have hhead2 : ∀ c t, trimDashes (collapseLoop (((List.intercalate ['-']
      (buildParts pre ns svc sfx)).map Char.toLower).filter (fun c => isAllowed c)))
      = c :: t → c ≠ '-' := by
    intro c t h
    obtain ⟨s2, hs2⟩ := trimDashes_front (collapseLoop _)
    have hdl : dropLeadingDashes (collapseLoop (((List.intercalate ['-']
        (buildParts pre ns svc sfx)).map Char.toLower).filter (fun c => isAllowed c)))
        = c :: (t ++ s2) := by
      rw [← hs2, h, List.cons_append]
    exact dropLeadingDashes_head hdl
  have h := sanitizeFinish_shape _ hmem2 hdd2 hhead2
  exact ⟨rfl, h.1, h.2.1, h.2.2.1, h.2.2.2⟩

end NCloudCtrl
